import Mathlib

/-!
Verification of the upgrade-planning core of this repository.

The development shallowly embeds the Go sources:
  internal/oobmigration/version.go
  internal/database/migration/cliutil/upgrade_planner.go
  the changesetSpecMigrator (batch out-of-band migrator)
as executable Lean definitions, and proves (or refutes) the claims of the
specification against them.

Go machine integers are modelled as unbounded Int: all version numbers that
occur in practice are tiny, and no claim here depends on 64-bit wraparound.
The SQL float division of the migrator progress query is modelled over Rat;
its values are exact small fractions, so no rounding is involved.
-/

namespace SgUpgrade

/-- Version is the pair of major and minor release numbers
(internal/oobmigration/version.go, type Version). -/
structure Version where
  Major : Int
  Minor : Int
deriving DecidableEq

instance : Inhabited Version := ⟨⟨0, 0⟩⟩

/-- VersionOrder is the three-valued comparison result
(VersionOrderBefore / VersionOrderEqual / VersionOrderAfter). -/
inductive VersionOrder where
  | before
  | equal
  | after
deriving DecidableEq

/-- comparePairs models the loop body of CompareVersions: scan the list of
component pairs, returning on the first strict inequality. -/
def comparePairs : List (Int × Int) → VersionOrder
  | [] => .equal
  | p :: rest =>
    if p.1 < p.2 then .before
    else if p.2 < p.1 then .after
    else comparePairs rest

/-- CompareVersions returns the relationship between a and b: compare majors,
then minors (internal/oobmigration/version.go, CompareVersions). -/
def CompareVersions (a b : Version) : VersionOrder :=
  comparePairs [(a.Major, b.Major), (a.Minor, b.Minor)]

/-- lastInSeries models the Go map literal map[int]int{3: 47}.  Indexing a Go
map with a missing key yields the zero value, so every major other than 3
reads as 0 here, exactly as in the source. -/
def lastInSeries (major : Int) : Int :=
  if major = 3 then 47 else 0

/-- bump produces the next version: when the lastInSeries lookup for the major
equals the minor, roll over to the next major at minor 0, otherwise increment
the minor (internal/oobmigration/version.go, bump). -/
def bump (v : Version) : Version :=
  if lastInSeries v.Major = v.Minor then ⟨v.Major + 1, 0⟩ else ⟨v.Major, v.Minor + 1⟩

/-- upgradeLoop is the fuel-indexed unfolding of the loop in MakeUpgradeRange:
for v := from; CompareVersions(v, to) != VersionOrderAfter; v = bump(v).
It returns none when the given fuel does not suffice, so a result of none for
every fuel means the Go loop never terminates. -/
def upgradeLoop : Nat → Version → Version → Option (List Version)
  | 0, _, _ => none
  | fuel + 1, v, t =>
    if CompareVersions v t = .after then some []
    else
      match upgradeLoop fuel (bump v) t with
      | none => none
      | some vs => some (v :: vs)

/-- versionString renders a version as in Version.String: "major.minor". -/
def versionString (v : Version) : String :=
  toString v.Major ++ "." ++ toString v.Minor

/-- gitTag renders a version as in Version.GitTag: "vmajor.minor.0". -/
def gitTag (v : Version) : String :=
  "v" ++ toString v.Major ++ "." ++ toString v.Minor ++ ".0"

/-- MakeUpgradeRange returns the inclusive sequence of versions from f to t,
or the inverted-range error when f is after t
(internal/oobmigration/version.go, MakeUpgradeRange).  The extra fuel argument
bounds the loop of the source; none records fuel exhaustion. -/
def MakeUpgradeRange (fuel : Nat) (f t : Version) : Option (Except String (List Version)) :=
  if CompareVersions f t = .after then
    some (.error ("invalid range (from=" ++ versionString f ++ " > to=" ++ versionString t ++ ")"))
  else
    (upgradeLoop fuel f t).map (fun vs => .ok vs)

/-- pointIntersectsInterval returns true if point falls within the closed
interval from lower to upper (internal/oobmigration/version.go). -/
def pointIntersectsInterval (lower upper point : Version) : Bool :=
  !(CompareVersions point lower == .before) && !(CompareVersions upper point == .before)

/-- OutOfBandMigration is a registered data migration with its validity
interval expressed as versions (spec section 3): the interval is
introducedAt inclusive up to deprecatedAt exclusive. -/
structure OutOfBandMigration where
  id : Int
  introducedAt : Version
  deprecatedAt : Version
deriving DecidableEq

/-- MigrationInterrupt pairs a version boundary with the IDs of the
out-of-band migrations that must be complete before crossing it (the Go
fields are Version and MigrationIDs). -/
structure MigrationInterrupt where
  version : Version
  migrationIDs : List Int
deriving DecidableEq

/-- versionLe is the non-strict version order used to sort interrupts. -/
def versionLe (a b : Version) : Prop := CompareVersions a b ≠ .after

instance : DecidableRel versionLe := fun a b => by
  unfold versionLe
  infer_instance

instance : IsTotal Version versionLe :=
  ⟨fun a b => by
    obtain ⟨am, an⟩ := a
    obtain ⟨bm, bn⟩ := b
    simp only [versionLe, CompareVersions, comparePairs]
    split_ifs <;> simp_all⟩

set_option maxHeartbeats 2000000 in
instance : IsTrans Version versionLe :=
  ⟨fun a b c hab hbc => by
    obtain ⟨am, an⟩ := a
    obtain ⟨bm, bn⟩ := b
    obtain ⟨cm, cn⟩ := c
    simp only [versionLe, CompareVersions, comparePairs] at hab hbc ⊢
    split_ifs at hab hbc ⊢ <;> simp_all <;> omega⟩

/-- interruptRelevant keeps the registered migrations whose deprecatedAt
falls strictly inside the half-open interval (f, t]: strictly after f and
within the closed interval of the range. -/
def interruptRelevant (f t : Version) (ms : List OutOfBandMigration) :
    List OutOfBandMigration :=
  ms.filter fun m =>
    (CompareVersions f m.deprecatedAt == .before) && pointIntersectsInterval f t m.deprecatedAt

/-- interruptVersions is the set of distinct deprecation versions of the
relevant migrations. -/
def interruptVersions (f t : Version) (ms : List OutOfBandMigration) : List Version :=
  ((interruptRelevant f t ms).map fun m => m.deprecatedAt).dedup

/-- Modelled from the spec: the planner calls
oobmigration.ScheduleMigrationInterrupts, whose definition is not part of
this source tree (only its caller in upgrade_planner.go and the helper
pointIntersectsInterval are).  Following section 4.4 of the spec: every
registered migration whose deprecatedAt falls strictly inside (from, to]
records an interrupt keyed by that version; interrupts sharing a version are
merged into a single entry listing all such IDs; entries are returned in
ascending version order. -/
def scheduleMigrationInterrupts (f t : Version) (ms : List OutOfBandMigration) :
    List MigrationInterrupt :=
  ((interruptVersions f t ms).insertionSort versionLe).map fun v =>
    { version := v
      migrationIDs := ((interruptRelevant f t ms).filter fun m => m.deprecatedAt == v).map
        fun m => m.id }

/-- SchemaMetadata models the value computed by metadataBySchemaNameForVersion:
for every schema name the leafIDsByRev table, a function from git tag to the
leaf migration IDs recorded at that tag (indexing a missing Go map key yields
the nil slice, so total functions into lists model it faithfully). -/
abbrev SchemaMetadata := List (String × (String → List Int))

/-- upgradeStep mirrors the upgradeStep struct of upgrade_planner.go. -/
structure upgradeStep where
  InstanceVersion : Version
  LeafMigrationIDsBySchema : List (String × List Int)
  OutOfBandMigrationIDs : List Int

/-- makeUpgradeStep mirrors the closure of the same name in planUpgrade:
resolve every schema's leaf set at the git tag of the step's version. -/
def makeUpgradeStep (metadataBySchemaName : SchemaMetadata) (version : Version)
    (migrationIDs : List Int) : upgradeStep :=
  { InstanceVersion := version
    LeafMigrationIDsBySchema := metadataBySchemaName.map fun p => (p.1, p.2 (gitTag version))
    OutOfBandMigrationIDs := migrationIDs }

/-- planUpgrade mirrors upgrade_planner.go: an empty range yields no steps
and no error; otherwise fetch the stitched migration-graph metadata for the
range, schedule the out-of-band interrupts for (from, to), and emit one step
per interrupt followed by one final step at the target version with no
out-of-band IDs.  The two collaborators whose definitions live outside this
tree (metadataBySchemaNameForVersion, which delegates to the stitch package,
and oobmigration.ScheduleMigrationInterrupts) are passed as arguments. -/
def planUpgrade
    (fetchMetadata : List Version → Except String SchemaMetadata)
    (scheduleInterrupts : Version → Version → Except String (List MigrationInterrupt))
    (versionRange : List Version) : Except String (List upgradeStep) :=
  match versionRange with
  | [] => .ok []
  | v0 :: rest =>
    match fetchMetadata (v0 :: rest) with
    | .error e => .error e
    | .ok md =>
      match scheduleInterrupts v0 ((v0 :: rest).getLast (List.cons_ne_nil v0 rest)) with
      | .error e => .error e
      | .ok interrupts =>
        .ok ((interrupts.map fun i => makeUpgradeStep md i.version i.migrationIDs)
          ++ [makeUpgradeStep md ((v0 :: rest).getLast (List.cons_ne_nil v0 rest)) []])

/-- changesetSpecMigrationCountPerRun is the batch size of the forward
migration: 100 rows per Up call. -/
def changesetSpecMigrationCountPerRun : Nat := 100

/-- changesetSpecMigratorProgress models the Progress SQL query of the
changeset spec migrator: c1 counts the rows of changeset_specs satisfying
migrated, c2 counts all rows, and the result is 1 when c2 is 0 and
(c2 - c1) / c2 otherwise.  A table is modelled by the list of its rows'
migrated flags; the float division is exact here, modelled over Rat. -/
def changesetSpecMigratorProgress (table : List Bool) : Rat :=
  let c1 : Rat := ((table.filter fun b => b).length : Rat)
  let c2 : Rat := (table.length : Rat)
  if table.length = 0 then 1 else (c2 - c1) / c2

/-- migrateFirstN models one Up transaction on the flags table: list at most
n rows that still require migration and migrate each of them, leaving every
other row untouched. -/
def migrateFirstN : Nat → List Bool → List Bool
  | _, [] => []
  | 0, table => table
  | n + 1, true :: rest => true :: migrateFirstN (n + 1) rest
  | n + 1, false :: rest => true :: migrateFirstN n rest

/-- changesetSpecMigratorUp performs one forward batch of at most
changesetSpecMigrationCountPerRun rows. -/
def changesetSpecMigratorUp (table : List Bool) : List Bool :=
  migrateFirstN changesetSpecMigrationCountPerRun table

/-- changesetSpecMigratorDown models the Down SQL query, UPDATE
changeset_specs SET migrated = FALSE WHERE 1 = 1: it clears the migrated flag
of every row of the table. -/
def changesetSpecMigratorDown (table : List Bool) : List Bool :=
  table.map fun _ => false

/-- changedCount counts the positions at which two equally long flag tables
differ. -/
def changedCount (a b : List Bool) : Nat :=
  (List.zip a b).countP fun p => p.1 != p.2

/-- sampleMetadata is a concrete one-schema metadata table used to witness
the planner theorems on concrete inputs. -/
def sampleMetadata : SchemaMetadata :=
  [("frontend", fun tag => if tag = "v4.0.0" then [5] else [4])]

/-- sampleFetch is a concrete metadata fetcher that always succeeds with
sampleMetadata. -/
def sampleFetch : List Version → Except String SchemaMetadata :=
  fun _ => .ok sampleMetadata

/-- sampleSched is a concrete interrupt scheduler returning one interrupt at
version 3.47 for migration 12. -/
def sampleSched : Version → Version → Except String (List MigrationInterrupt) :=
  fun _ _ => .ok [⟨⟨3, 47⟩, [12]⟩]

/-! Basic facts about the version order. -/

theorem compare_before_iff (a b : Version) :
    CompareVersions a b = .before ↔
      (a.Major < b.Major ∨ (a.Major = b.Major ∧ a.Minor < b.Minor)) := by
  simp only [CompareVersions, comparePairs]
  split_ifs <;> simp_all <;> omega

theorem compare_after_iff (a b : Version) :
    CompareVersions a b = .after ↔
      (b.Major < a.Major ∨ (b.Major = a.Major ∧ b.Minor < a.Minor)) := by
  simp only [CompareVersions, comparePairs]
  split_ifs <;> simp_all <;> omega

theorem compare_equal_iff (a b : Version) : CompareVersions a b = .equal ↔ a = b := by
  obtain ⟨am, an⟩ := a
  obtain ⟨bm, bn⟩ := b
  simp only [CompareVersions, comparePairs, Version.mk.injEq]
  split_ifs <;> simp_all <;> omega

theorem compare_not_after_iff (a b : Version) :
    CompareVersions a b ≠ .after ↔
      (a.Major < b.Major ∨ (a.Major = b.Major ∧ a.Minor ≤ b.Minor)) := by
  constructor
  · intro h
    cases hc : CompareVersions a b with
    | before =>
      have := (compare_before_iff a b).1 hc
      omega
    | equal =>
      have := (compare_equal_iff a b).1 hc
      subst this
      omega
    | after => exact absurd hc h
  · intro h hc
    have := (compare_after_iff a b).1 hc
    omega

/-- upgradeLoop is monotone in its fuel: once enough fuel is supplied to finish
the loop, adding more fuel does not change the result. -/
theorem upgradeLoop_mono :
    ∀ (n m : Nat) (v t : Version) (vs : List Version),
      n ≤ m → upgradeLoop n v t = some vs → upgradeLoop m v t = some vs := by
  intro n
  induction n with
  | zero =>
    intro m v t vs _ h
    simp [upgradeLoop] at h
  | succ k ih =>
    intro m v t vs hle h
    obtain ⟨p, rfl⟩ : ∃ p, m = p + 1 := ⟨m - 1, by omega⟩
    rw [upgradeLoop] at h ⊢
    by_cases hc : CompareVersions v t = .after
    · rw [if_pos hc] at h ⊢
      exact h
    · rw [if_neg hc] at h ⊢
      cases hrec : upgradeLoop k (bump v) t with
      | none =>
        rw [hrec] at h
        exact absurd h (by simp)
      | some ws =>
        rw [hrec] at h
        rw [ih p (bump v) t ws (by omega) hrec]
        exact h

/-- upgradeLoop never terminates on the range from 4.1 to 5.0: the bump of
any version 4.k with k at least 1 is 4.(k+1), because lastInSeries reads the
missing key 4 as 0, which never equals k. -/
theorem upgradeLoop_stuck_after_4 :
    ∀ (fuel : Nat) (k : Int), 1 ≤ k → upgradeLoop fuel ⟨4, k⟩ ⟨5, 0⟩ = none := by
  intro fuel
  induction fuel with
  | zero =>
    intro k _
    rfl
  | succ n ih =>
    intro k hk
    have hcmp : CompareVersions ⟨4, k⟩ ⟨5, 0⟩ ≠ .after := by
      rw [compare_not_after_iff]
      left
      norm_num
    have hlast : lastInSeries 4 = 0 := by norm_num [lastInSeries]
    have hbump : bump ⟨4, k⟩ = ⟨4, k + 1⟩ := by
      simp only [bump, hlast]
      rw [if_neg (by omega)]
    rw [upgradeLoop, if_neg hcmp, hbump, ih (k + 1) (by omega)]

/-- C1: the claim says that for from not after to, MakeUpgradeRange returns a
sequence that starts at from, ends at to and visits every version in between.
It fails on the code: for from = 4.0 and to = 4.1 the code returns the
one-element sequence containing only 4.0, because bump(4.0) is 5.0 (the Go
map lookup lastInSeries[4] yields the zero value 0, which equals the minor),
so the target version 4.1 is skipped and the range does not end at to. -/
theorem makeUpgradeRange_skips_target (fuel : Nat) :
    CompareVersions ⟨4, 0⟩ ⟨4, 1⟩ = .before
    ∧ MakeUpgradeRange (fuel + 2) ⟨4, 0⟩ ⟨4, 1⟩ = some (.ok [⟨4, 0⟩])
    ∧ (⟨4, 1⟩ : Version) ∉ [(⟨4, 0⟩ : Version)] := by
  refine ⟨by decide, ?_, by decide⟩
  have h2 : upgradeLoop 2 ⟨4, 0⟩ ⟨4, 1⟩ = some [⟨4, 0⟩] := by decide
  have := upgradeLoop_mono 2 (fuel + 2) ⟨4, 0⟩ ⟨4, 1⟩ [⟨4, 0⟩] (by omega) h2
  rw [MakeUpgradeRange, if_neg (by decide), this]
  rfl

/-- C3: the claim says MakeUpgradeRange(3.46, 4.1) is the four-element
sequence 3.46, 3.47, 4.0, 4.1.  It fails on the code: the code returns only
the three-element sequence 3.46, 3.47, 4.0, because bump(4.0) jumps straight
to 5.0 and the loop then stops, dropping the target version 4.1. -/
theorem makeUpgradeRange_3_46_to_4_1 (fuel : Nat) :
    MakeUpgradeRange (fuel + 4) ⟨3, 46⟩ ⟨4, 1⟩ = some (.ok [⟨3, 46⟩, ⟨3, 47⟩, ⟨4, 0⟩])
    ∧ ([⟨3, 46⟩, ⟨3, 47⟩, ⟨4, 0⟩] : List Version) ≠ [⟨3, 46⟩, ⟨3, 47⟩, ⟨4, 0⟩, ⟨4, 1⟩] := by
  refine ⟨?_, by decide⟩
  have h4 : upgradeLoop 4 ⟨3, 46⟩ ⟨4, 1⟩ = some [⟨3, 46⟩, ⟨3, 47⟩, ⟨4, 0⟩] := by decide
  have := upgradeLoop_mono 4 (fuel + 4) ⟨3, 46⟩ ⟨4, 1⟩ [⟨3, 46⟩, ⟨3, 47⟩, ⟨4, 0⟩] (by omega) h4
  rw [MakeUpgradeRange, if_neg (by decide), this]
  rfl

/-- C5: the claim says MakeUpgradeRange is total on non-inverted ranges.  It
fails on the code: for from = 4.1 and to = 5.0 (a non-inverted range) the
loop never terminates, because bump can only leave major 4 from minor 0; the
fuel-indexed loop returns none for every fuel. -/
theorem makeUpgradeRange_diverges (fuel : Nat) :
    CompareVersions ⟨4, 1⟩ ⟨5, 0⟩ = .before
    ∧ MakeUpgradeRange fuel ⟨4, 1⟩ ⟨5, 0⟩ = none := by
  refine ⟨by decide, ?_⟩
  rw [MakeUpgradeRange, if_neg (by decide), upgradeLoop_stuck_after_4 fuel 1 (by norm_num)]
  rfl

/-- C8: bump(3.47) = 4.0 and bump(3.10) = 3.11 hold as claimed, but the
claim that bump otherwise increments only the minor component fails on the
code: bump(4.0) = 5.0, not 4.1, because the missing lastInSeries entry for
major 4 reads as 0 in Go and matches minor 0. -/
theorem bump_rolls_over_unregistered_major :
    bump ⟨3, 47⟩ = ⟨4, 0⟩ ∧ bump ⟨3, 10⟩ = ⟨3, 11⟩
    ∧ bump ⟨4, 0⟩ = ⟨5, 0⟩ ∧ (⟨5, 0⟩ : Version) ≠ ⟨4, 1⟩ := by
  decide

/-- C9: CompareVersions is reflexive into equal, antisymmetric (before in one
direction is exactly after in the other) and transitive on before: the strict
total lexicographic order on major then minor. -/
theorem compareVersions_strict_total_order :
    (∀ v : Version, CompareVersions v v = .equal)
    ∧ (∀ a b : Version, CompareVersions a b = .before ↔ CompareVersions b a = .after)
    ∧ (∀ a b c : Version, CompareVersions a b = .before → CompareVersions b c = .before →
        CompareVersions a c = .before) := by
  refine ⟨fun v => (compare_equal_iff v v).2 rfl, fun a b => ?_, fun a b c hab hbc => ?_⟩
  · rw [compare_before_iff, compare_after_iff]
  · rw [compare_before_iff] at hab hbc ⊢
    omega

/-- Witness for C9 at concrete versions. -/
theorem compareVersions_strict_total_order_witness :
    CompareVersions ⟨3, 5⟩ ⟨3, 5⟩ = .equal
    ∧ (CompareVersions ⟨3, 5⟩ ⟨4, 0⟩ = .before ↔ CompareVersions ⟨4, 0⟩ ⟨3, 5⟩ = .after)
    ∧ CompareVersions ⟨3, 5⟩ ⟨4, 1⟩ = .before :=
  ⟨compareVersions_strict_total_order.1 ⟨3, 5⟩,
   compareVersions_strict_total_order.2.1 ⟨3, 5⟩ ⟨4, 0⟩,
   compareVersions_strict_total_order.2.2 ⟨3, 5⟩ ⟨4, 0⟩ ⟨4, 1⟩ (by decide) (by decide)⟩

/-! Interrupt scheduling. -/

theorem versionLt_of_le_ne (a b : Version) (hle : versionLe a b) (hne : a ≠ b) :
    CompareVersions a b = .before := by
  cases hc : CompareVersions a b with
  | before => rfl
  | equal => exact absurd ((compare_equal_iff a b).1 hc) hne
  | after => exact absurd hc hle

theorem mem_interruptVersions (f t v : Version) (ms : List OutOfBandMigration) :
    v ∈ interruptVersions f t ms ↔
      (CompareVersions f v = .before ∧ pointIntersectsInterval f t v = true
        ∧ ∃ m ∈ ms, m.deprecatedAt = v) := by
  simp only [interruptVersions, interruptRelevant, List.mem_dedup, List.mem_map,
    List.mem_filter, Bool.and_eq_true, beq_iff_eq]
  constructor
  · rintro ⟨m, ⟨hm, hcmp, hpt⟩, rfl⟩
    exact ⟨hcmp, hpt, m, hm, rfl⟩
  · rintro ⟨hcmp, hpt, m, hm, rfl⟩
    exact ⟨m, ⟨hm, hcmp, hpt⟩, rfl⟩

theorem interruptRelevant_filter_eq (f t v : Version) (ms : List OutOfBandMigration)
    (hcmp : CompareVersions f v = .before) (hpt : pointIntersectsInterval f t v = true) :
    ((interruptRelevant f t ms).filter fun m => m.deprecatedAt == v)
      = ms.filter fun m => m.deprecatedAt == v := by
  rw [interruptRelevant, List.filter_filter]
  apply List.filter_congr
  intro m _
  by_cases h : m.deprecatedAt = v
  · simp [h, hcmp, hpt]
  · simp [beq_iff_eq, h]

/-- C2: the interrupt schedule has exactly one entry per distinct
deprecatedAt version strictly inside (from, to] among the registered
migrations (entries are strictly ascending under CompareVersions, hence
versions never repeat, and a version occurs exactly when some registered
migration is deprecated there); each entry lists the IDs of all migrations
deprecated at its version; and a migration whose deprecatedAt falls outside
(from, to] contributes to no entry. -/
theorem scheduleMigrationInterrupts_spec (f t : Version) (ms : List OutOfBandMigration) :
    List.Pairwise
      (fun e1 e2 : MigrationInterrupt => CompareVersions e1.version e2.version = .before)
      (scheduleMigrationInterrupts f t ms)
    ∧ (∀ v : Version,
        (∃ e ∈ scheduleMigrationInterrupts f t ms, e.version = v) ↔
          (CompareVersions f v = .before ∧ pointIntersectsInterval f t v = true
            ∧ ∃ m ∈ ms, m.deprecatedAt = v))
    ∧ ∀ e ∈ scheduleMigrationInterrupts f t ms,
        e.migrationIDs = (ms.filter fun m => m.deprecatedAt == e.version).map fun m => m.id := by
  refine ⟨?_, ?_, ?_⟩
  · rw [scheduleMigrationInterrupts, List.pairwise_map]
    have hsorted : List.Pairwise versionLe
        ((interruptVersions f t ms).insertionSort versionLe) :=
      List.sorted_insertionSort versionLe (interruptVersions f t ms)
    have hnodup : List.Pairwise (fun a b : Version => a ≠ b)
        ((interruptVersions f t ms).insertionSort versionLe) :=
      (List.perm_insertionSort versionLe (interruptVersions f t ms)).nodup_iff.mpr
        (List.nodup_dedup _)
    exact (hsorted.and hnodup).imp fun h => versionLt_of_le_ne _ _ h.1 h.2
  · intro v
    constructor
    · rintro ⟨e, he, rfl⟩
      rw [scheduleMigrationInterrupts] at he
      obtain ⟨w, hw, rfl⟩ := List.mem_map.1 he
      exact (mem_interruptVersions f t w ms).1 ((List.mem_insertionSort versionLe).1 hw)
    · intro hv
      have hmem : v ∈ (interruptVersions f t ms).insertionSort versionLe :=
        (List.mem_insertionSort versionLe).2 ((mem_interruptVersions f t v ms).2 hv)
      rw [scheduleMigrationInterrupts]
      exact ⟨_, List.mem_map_of_mem _ hmem, rfl⟩
  · intro e he
    rw [scheduleMigrationInterrupts] at he
    obtain ⟨w, hw, rfl⟩ := List.mem_map.1 he
    have hv := (mem_interruptVersions f t w ms).1 ((List.mem_insertionSort versionLe).1 hw)
    show ((interruptRelevant f t ms).filter fun m => m.deprecatedAt == w).map (fun m => m.id)
      = (ms.filter fun m => m.deprecatedAt == w).map fun m => m.id
    rw [interruptRelevant_filter_eq f t w ms hv.1 hv.2.1]

/-- Witness for C2: the spec example's migration with interval from 1.0 to
2.0 yields an interrupt entry at version 2.0 for the range from 1.0 to 3.0. -/
theorem scheduleMigrationInterrupts_spec_witness :
    ∃ e ∈ scheduleMigrationInterrupts ⟨1, 0⟩ ⟨3, 0⟩ [⟨42, ⟨1, 0⟩, ⟨2, 0⟩⟩],
      e.version = ⟨2, 0⟩ :=
  ((scheduleMigrationInterrupts_spec ⟨1, 0⟩ ⟨3, 0⟩ [⟨42, ⟨1, 0⟩, ⟨2, 0⟩⟩]).2.1 ⟨2, 0⟩).2
    ⟨by decide, by decide, ⟨42, ⟨1, 0⟩, ⟨2, 0⟩⟩, by decide, rfl⟩

/-! Upgrade planning. -/

/-- C4: for every non-empty version range, a successful planUpgrade returns
the interrupt-derived steps followed by exactly one final step whose
InstanceVersion is the last version of the range, whose leaf migration IDs
are the ones resolved for that version's git tag, and whose out-of-band
migration ID set is empty. -/
theorem planUpgrade_final_step
    (fetchMetadata : List Version → Except String SchemaMetadata)
    (scheduleInterrupts : Version → Version → Except String (List MigrationInterrupt))
    (versionRange : List Version) (steps : List upgradeStep) (f t : Version)
    (hhead : versionRange.head? = some f)
    (hlast : versionRange.getLast? = some t)
    (hok : planUpgrade fetchMetadata scheduleInterrupts versionRange = .ok steps) :
    ∃ md interrupts,
      fetchMetadata versionRange = .ok md
      ∧ scheduleInterrupts f t = .ok interrupts
      ∧ steps = (interrupts.map fun i => makeUpgradeStep md i.version i.migrationIDs)
          ++ [makeUpgradeStep md t []]
      ∧ steps.getLast? = some
          { InstanceVersion := t
            LeafMigrationIDsBySchema := md.map fun p => (p.1, p.2 (gitTag t))
            OutOfBandMigrationIDs := [] } := by
  match versionRange, hhead with
  | v0 :: rest, hhead =>
    have hf : v0 = f := by simpa using hhead
    subst hf
    have ht : (v0 :: rest).getLast (List.cons_ne_nil v0 rest) = t := by
      rw [List.getLast?_eq_getLast (v0 :: rest) (List.cons_ne_nil v0 rest)] at hlast
      simpa using hlast
    rw [planUpgrade] at hok
    cases hmd : fetchMetadata (v0 :: rest) with
    | error e =>
      rw [hmd] at hok
      cases hok
    | ok md =>
      rw [hmd] at hok
      cases hint : scheduleInterrupts v0 ((v0 :: rest).getLast (List.cons_ne_nil v0 rest)) with
      | error e =>
        rw [hint] at hok
        cases hok
      | ok interrupts =>
        rw [hint] at hok
        cases hok
        rw [ht] at hint
        refine ⟨md, interrupts, rfl, hint, by rw [ht], ?_⟩
        rw [ht, List.getLast?_concat]
        rfl

/-- Witness for C4 at a concrete range, fetcher and scheduler. -/
theorem planUpgrade_final_step_witness :
    ∃ md interrupts,
      sampleFetch [⟨3, 46⟩, ⟨3, 47⟩, ⟨4, 0⟩] = .ok md
      ∧ sampleSched ⟨3, 46⟩ ⟨4, 0⟩ = .ok interrupts
      ∧ ([makeUpgradeStep sampleMetadata ⟨3, 47⟩ [12],
          makeUpgradeStep sampleMetadata ⟨4, 0⟩ []] : List upgradeStep)
          = (interrupts.map fun i => makeUpgradeStep md i.version i.migrationIDs)
            ++ [makeUpgradeStep md ⟨4, 0⟩ []]
      ∧ ([makeUpgradeStep sampleMetadata ⟨3, 47⟩ [12],
          makeUpgradeStep sampleMetadata ⟨4, 0⟩ []] : List upgradeStep).getLast?
          = some { InstanceVersion := ⟨4, 0⟩
                   LeafMigrationIDsBySchema := md.map fun p => (p.1, p.2 (gitTag ⟨4, 0⟩))
                   OutOfBandMigrationIDs := [] } :=
  planUpgrade_final_step sampleFetch sampleSched [⟨3, 46⟩, ⟨3, 47⟩, ⟨4, 0⟩]
    [makeUpgradeStep sampleMetadata ⟨3, 47⟩ [12], makeUpgradeStep sampleMetadata ⟨4, 0⟩ []]
    ⟨3, 46⟩ ⟨4, 0⟩ rfl rfl rfl

/-- C10: planUpgrade accepts the empty version range at its interface,
returning the empty step sequence with no error, and it does so uniformly in
both collaborators: no schema metadata and no interrupts are consulted. -/
theorem planUpgrade_empty_range
    (fetchMetadata : List Version → Except String SchemaMetadata)
    (scheduleInterrupts : Version → Version → Except String (List MigrationInterrupt)) :
    planUpgrade fetchMetadata scheduleInterrupts [] = .ok [] := rfl

/-- Witness for C10 with concrete collaborators. -/
theorem planUpgrade_empty_range_witness :
    planUpgrade sampleFetch sampleSched [] = .ok [] :=
  planUpgrade_empty_range sampleFetch sampleSched

/-! The changeset spec out-of-band migrator. -/

/-- Progress always lies between 0 and 1: the counted fraction is a ratio of
a subset count over the total count. -/
theorem changesetSpecMigratorProgress_mem_unit (table : List Bool) :
    0 ≤ changesetSpecMigratorProgress table ∧ changesetSpecMigratorProgress table ≤ 1 := by
  rw [changesetSpecMigratorProgress]
  by_cases h : table.length = 0
  · simp [h]
  · have hlen : (table.filter fun b => b).length ≤ table.length := List.length_filter_le _ _
    have hpos : (0 : Rat) < (table.length : Rat) := by
      have : 0 < table.length := Nat.pos_of_ne_zero h
      exact_mod_cast this
    rw [if_neg h]
    constructor
    · apply div_nonneg _ (le_of_lt hpos)
      have : ((table.filter fun b => b).length : Rat) ≤ (table.length : Rat) := by
        exact_mod_cast hlen
      linarith
    · rw [div_le_one hpos]
      have : (0 : Rat) ≤ ((table.filter fun b => b).length : Rat) := by positivity
      linarith

/-- C6: the claim says Progress is exactly 1 precisely when the forward
migration is complete.  It fails on the code: c1 counts the rows satisfying
migrated, so the query returns (c2 - c1) / c2, the fraction of rows NOT yet
migrated.  A fully migrated one-row table reports 0, and a completely
unmigrated one-row table reports 1, the exact opposite of the claim (the
empty table does report 1, and the value always lies in the unit interval,
see changesetSpecMigratorProgress_mem_unit). -/
theorem changesetSpecMigratorProgress_inverted :
    changesetSpecMigratorProgress [true] = 0
    ∧ changesetSpecMigratorProgress [false] = 1
    ∧ changesetSpecMigratorProgress [] = 1 := by
  refine ⟨?_, ?_, ?_⟩ <;> norm_num [changesetSpecMigratorProgress]

theorem changedCount_cons (a b : Bool) (as bs : List Bool) :
    changedCount (a :: as) (b :: bs)
      = changedCount as bs + (if a != b then 1 else 0) := by
  simp [changedCount, List.zip_cons_cons, List.countP_cons]

theorem changedCount_self (t : List Bool) : changedCount t t = 0 := by
  induction t with
  | nil => rfl
  | cons b rest ih => simp [changedCount_cons, ih]

theorem changedCount_migrateFirstN (n : Nat) (table : List Bool) :
    changedCount (migrateFirstN n table) table ≤ n := by
  induction table generalizing n with
  | nil =>
    simp [migrateFirstN, changedCount]
  | cons b rest ih =>
    cases n with
    | zero =>
      cases b <;> simp [migrateFirstN, changedCount_self]
    | succ k =>
      cases b with
      | true =>
        rw [show migrateFirstN (k + 1) (true :: rest) = true :: migrateFirstN (k + 1) rest
          from rfl]
        rw [changedCount_cons]
        have := ih (k + 1)
        simp
        omega
      | false =>
        rw [show migrateFirstN (k + 1) (false :: rest) = true :: migrateFirstN k rest from rfl]
        rw [changedCount_cons]
        have := ih k
        simp
        omega

set_option maxRecDepth 4000 in
/-- Counterexample for C7: on a table of 101 migrated rows, one Down call
flips all 101 rows, strictly more than the 100-row batch size, so the rows
outside any 100-row batch do not keep their state. -/
theorem changesetSpecMigratorDown_cex :
    changedCount (changesetSpecMigratorDown (List.replicate 101 true)) (List.replicate 101 true)
      = 101
    ∧ changesetSpecMigrationCountPerRun < 101 := by
  refine ⟨by decide, by decide⟩

/-- C7 amended: a single Down call is not batched at all: it clears the
migrated flag of every row of the table in one call (while Up does change at
most changesetSpecMigrationCountPerRun rows per call). -/
theorem changesetSpecMigratorDown_clears_all (table : List Bool) :
    (changesetSpecMigratorDown table).length = table.length
    ∧ (∀ b ∈ changesetSpecMigratorDown table, b = false)
    ∧ changedCount (changesetSpecMigratorUp table) table ≤ changesetSpecMigrationCountPerRun := by
  refine ⟨List.length_map table _, ?_, changedCount_migrateFirstN _ _⟩
  intro b hb
  rw [changesetSpecMigratorDown] at hb
  obtain ⟨a, _, rfl⟩ := List.mem_map.1 hb
  rfl

/-- Witness for C7 amended at a concrete table. -/
theorem changesetSpecMigratorDown_clears_all_witness :
    (changesetSpecMigratorDown [true, false, true]).length
        = ([true, false, true] : List Bool).length
    ∧ (∀ b ∈ changesetSpecMigratorDown [true, false, true], b = false)
    ∧ changedCount (changesetSpecMigratorUp [true, false, true]) [true, false, true]
        ≤ changesetSpecMigrationCountPerRun :=
  changesetSpecMigratorDown_clears_all [true, false, true]

end SgUpgrade
